import Mathlib

set_option linter.unusedVariables false
set_option linter.unreachableTactic false
set_option linter.unusedTactic false
set_option linter.unnecessarySeqFocus false

/-! Embedding of the assessment scoring and leveling engine of the
english-tutor backend (services/assessment.py). -/

/-- A question dictionary as consumed by `AssessmentService.calculate_score`:
`id`, optional `weight` (defaults to 1.0 when the key is absent) and
`correct_answer` (index of the correct option). -/
structure AQuestion where
  id : String
  weight : Option ℚ
  correct_answer : Int
deriving DecidableEq

/-- The scoring loop of `calculate_score` (assessment.py lines 55-65):
accumulates `(total_weight, earned_weight)` over the question list. -/
def scoreLoop (answers : List (String × Int)) :
    List AQuestion → ℚ × ℚ → ℚ × ℚ
  | [], acc => acc
  | q :: rest, (total, earned) =>
      let weight := q.weight.getD 1
      let total' := total + weight
      let earned' :=
        match answers.lookup q.id with
        | some userAnswer =>
            if userAnswer = q.correct_answer then earned + weight else earned
        | none => earned
      scoreLoop answers rest (total', earned')

/-- Embedding of `AssessmentService.calculate_score` (assessment.py lines 38-70). -/
def calculate_score (questions : List AQuestion)
    (answers : List (String × Int)) : ℚ :=
  let acc := scoreLoop answers questions (0, 0)
  if acc.1 = 0 then 0 else acc.2 / acc.1

/-- Spec-side total weight: sum of the weights of all questions. -/
def totalWeight (questions : List AQuestion) : ℚ :=
  (questions.map (fun q => q.weight.getD 1)).sum

/-- Spec-side earned weight: sum of the weights of exactly those questions
whose id is answered with the correct option index. -/
def earnedWeight (questions : List AQuestion)
    (answers : List (String × Int)) : ℚ :=
  ((questions.filter
      (fun q => answers.lookup q.id == some q.correct_answer)).map
    (fun q => q.weight.getD 1)).sum

lemma scoreLoop_eq (answers : List (String × Int)) :
    ∀ (questions : List AQuestion) (t e : ℚ),
      scoreLoop answers questions (t, e) =
        (t + totalWeight questions, e + earnedWeight questions answers) := by
  intro questions
  induction questions with
  | nil => intro t e; simp [scoreLoop, totalWeight, earnedWeight]
  | cons q rest ih =>
      intro t e
      simp only [scoreLoop]
      rw [ih]
      cases hq : answers.lookup q.id with
      | none =>
          simp only [totalWeight, earnedWeight, hq, List.map_cons, List.sum_cons,
            List.filter_cons, Prod.mk.injEq]
          simp [hq]
          first | trivial | ring1 | (constructor <;> (first | trivial | ring1))
      | some a =>
          by_cases ha : a = q.correct_answer
          · simp only [totalWeight, earnedWeight, List.map_cons, List.sum_cons,
              List.filter_cons, Prod.mk.injEq]
            simp [hq, ha]
            first | trivial | ring1 | (constructor <;> (first | trivial | ring1))
          · simp only [totalWeight, earnedWeight, List.map_cons, List.sum_cons,
              List.filter_cons, Prod.mk.injEq]
            simp [hq, ha]
            first | trivial | ring1 | (constructor <;> (first | trivial | ring1))

example : calculate_score [⟨"q1", some 1, 0⟩, ⟨"q2", some 2, 1⟩, ⟨"q3", some (3/2), 2⟩]
    [("q1", 0), ("q2", 1), ("q3", 1)] = 3 / (9/2) := by
  simp [calculate_score, scoreLoop, List.lookup]
  norm_num

example : calculate_score [⟨"q1", some 1, 0⟩] [("q1", 0)] = 1 := by
  simp [calculate_score, scoreLoop, List.lookup]

/-- C1: `calculate_score` returns earned/total, where total is the sum of
the weights of all questions (weight defaulting to 1 when absent) and
earned is the sum of the weights of exactly those questions whose id is a
key of the answer map with submitted option index equal to the question's
correct answer index; when the total weight is 0 the result is exactly 0,
with no error (the function is total). -/
theorem claim_C1_calculate_score_spec
    (questions : List AQuestion) (answers : List (String × Int)) :
    calculate_score questions answers =
      if totalWeight questions = 0 then 0
      else earnedWeight questions answers / totalWeight questions := by
  unfold calculate_score
  rw [scoreLoop_eq]
  simp

/-- Error cases raised as `AssessmentError` (utils/exceptions.py) by
`AssessmentService`, distinguished here by their message. -/
inductive AssessmentErr where
  | invalidScore (score : ℚ)
  | undeterminedLevel (score : ℚ)
  | assessmentNotFound (aid : Nat)
deriving DecidableEq

/-- Embedding of `AssessmentService.LEVEL_THRESHOLDS` (assessment.py lines 29-36). -/
def LEVEL_THRESHOLDS : List (String × (ℚ × ℚ)) :=
  [("A1", (0, 20/100)), ("A2", (20/100, 40/100)), ("B1", (40/100, 60/100)),
   ("B2", (60/100, 80/100)), ("C1", (80/100, 95/100)), ("C2", (95/100, 101/100))]

/-- The threshold scan of `determine_level` (assessment.py lines 87-89):
the first level whose `[min, max)` range holds the score. -/
def levelScan (score : ℚ) : List (String × (ℚ × ℚ)) → Option String
  | [] => none
  | (level, mn, mx) :: rest =>
      if mn ≤ score ∧ score < mx then some level else levelScan score rest

/-- Embedding of `AssessmentService.determine_level` (assessment.py lines 72-91). -/
def determine_level (score : ℚ) : Except AssessmentErr String :=
  if score < 0 ∨ score > 1 then .error (.invalidScore score)
  else
    match levelScan score LEVEL_THRESHOLDS with
    | some level => .ok level
    | none => .error (.undeterminedLevel score)

/-- The six CEFR bands of the threshold table as one total function on
[0, 1], used to state that the scan is a partition. -/
def specLevel (s : ℚ) : String :=
  if s < 20/100 then "A1"
  else if s < 40/100 then "A2"
  else if s < 60/100 then "B1"
  else if s < 80/100 then "B2"
  else if s < 95/100 then "C1"
  else "C2"

lemma determine_level_eq_spec (s : ℚ) (h0 : 0 ≤ s) (h1 : s ≤ 1) :
    determine_level s = Except.ok (specLevel s) := by
  have hnot : ¬ (s < 0 ∨ s > 1) := by push_neg; exact ⟨h0, h1⟩
  unfold determine_level
  rw [if_neg hnot]
  by_cases h20 : s < 20/100
  · simp [LEVEL_THRESHOLDS, levelScan, specLevel, h0, h20]
  · by_cases h40 : s < 40/100
    · simp [LEVEL_THRESHOLDS, levelScan, specLevel, h20, h40, le_of_not_lt h20]
    · by_cases h60 : s < 60/100
      · simp [LEVEL_THRESHOLDS, levelScan, specLevel, h20, h40, h60,
          le_of_not_lt h40]
      · by_cases h80 : s < 80/100
        · simp [LEVEL_THRESHOLDS, levelScan, specLevel, h20, h40, h60, h80,
            le_of_not_lt h60]
        · by_cases h95 : s < 95/100
          · simp [LEVEL_THRESHOLDS, levelScan, specLevel, h20, h40, h60, h80,
              h95, le_of_not_lt h80]
          · have h101 : s < 101/100 := lt_of_le_of_lt h1 (by norm_num)
            simp [LEVEL_THRESHOLDS, levelScan, specLevel, h20, h40, h60, h80,
              h95, le_of_not_lt h95, h101]

lemma specLevel_eq_A1_iff (s : ℚ) : specLevel s = "A1" ↔ s < 20/100 := by
  unfold specLevel
  split_ifs with h1 h2 h3 h4 h5 <;> simp_all

lemma specLevel_eq_A2_iff (s : ℚ) :
    specLevel s = "A2" ↔ 20/100 ≤ s ∧ s < 40/100 := by
  unfold specLevel
  split_ifs with h1 h2 h3 h4 h5 <;> simp_all <;> intro h <;> linarith

lemma specLevel_eq_B1_iff (s : ℚ) :
    specLevel s = "B1" ↔ 40/100 ≤ s ∧ s < 60/100 := by
  unfold specLevel
  split_ifs with h1 h2 h3 h4 h5 <;> simp_all <;> intro h <;> linarith

lemma specLevel_eq_B2_iff (s : ℚ) :
    specLevel s = "B2" ↔ 60/100 ≤ s ∧ s < 80/100 := by
  unfold specLevel
  split_ifs with h1 h2 h3 h4 h5 <;> simp_all <;> intro h <;> linarith

lemma specLevel_eq_C1_iff (s : ℚ) :
    specLevel s = "C1" ↔ 80/100 ≤ s ∧ s < 95/100 := by
  unfold specLevel
  split_ifs with h1 h2 h3 h4 h5 <;> simp_all <;> intro h <;> linarith

lemma specLevel_eq_C2_iff (s : ℚ) : specLevel s = "C2" ↔ 95/100 ≤ s := by
  unfold specLevel
  split_ifs with h1 h2 h3 h4 h5 <;> simp_all <;> linarith

/-- C2: for every score in [0,1], `determine_level` returns exactly one
level, and the six ranges partition [0,1] lower-inclusive/upper-exclusive
with C2 closed at 1: [0,0.20)→A1, [0.20,0.40)→A2, [0.40,0.60)→B1,
[0.60,0.80)→B2, [0.80,0.95)→C1 and [0.95,1]→C2 (so 0↦A1, 0.95↦C2, 1↦C2),
with no gap and no overlap. -/
theorem claim_C2_determine_level_partition (s : ℚ) (h0 : 0 ≤ s) (h1 : s ≤ 1) :
    (∃ level, determine_level s = Except.ok level) ∧
    (determine_level s = Except.ok "A1" ↔ s < 20/100) ∧
    (determine_level s = Except.ok "A2" ↔ 20/100 ≤ s ∧ s < 40/100) ∧
    (determine_level s = Except.ok "B1" ↔ 40/100 ≤ s ∧ s < 60/100) ∧
    (determine_level s = Except.ok "B2" ↔ 60/100 ≤ s ∧ s < 80/100) ∧
    (determine_level s = Except.ok "C1" ↔ 80/100 ≤ s ∧ s < 95/100) ∧
    (determine_level s = Except.ok "C2" ↔ 95/100 ≤ s) := by
  rw [determine_level_eq_spec s h0 h1]
  simp only [Except.ok.injEq]
  exact ⟨⟨specLevel s, rfl⟩, specLevel_eq_A1_iff s, specLevel_eq_A2_iff s,
    specLevel_eq_B1_iff s, specLevel_eq_B2_iff s, specLevel_eq_C1_iff s,
    specLevel_eq_C2_iff s⟩

/-- Witness for C2 at the boundary score 0.95, which must classify as C2. -/
theorem claim_C2_witness : determine_level (95/100) = Except.ok "C2" :=
  (claim_C2_determine_level_partition (95/100) (by norm_num)
      (by norm_num)).2.2.2.2.2.2.mpr (by norm_num)

/-- C3: `determine_level` fails if and only if the score is outside
[0,1], and then with the invalid-score (out-of-range) error; for every
score inside [0,1] no error is raised. -/
theorem claim_C3_determine_level_error_iff (s : ℚ) :
    ((∃ e, determine_level s = Except.error e) ↔ (s < 0 ∨ 1 < s)) ∧
    ((s < 0 ∨ 1 < s) →
      determine_level s = Except.error (AssessmentErr.invalidScore s)) := by
  have herr : (s < 0 ∨ 1 < s) →
      determine_level s = Except.error (AssessmentErr.invalidScore s) := by
    intro h
    unfold determine_level
    rw [if_pos h]
  refine ⟨⟨?_, fun h => ⟨_, herr h⟩⟩, herr⟩
  intro ⟨e, he⟩
  by_contra hin
  push_neg at hin
  rw [determine_level_eq_spec s hin.1 hin.2] at he
  exact Except.noConfusion he

/-- Witness for C3 at the out-of-range score 1.1. -/
theorem claim_C3_witness :
    determine_level (11/10) = Except.error (AssessmentErr.invalidScore (11/10)) :=
  (claim_C3_determine_level_error_iff (11/10)).2 (by norm_num)

lemma scoreLoop_unknown_key (answers : List (String × Int)) (k : String)
    (v : Int) :
    ∀ (questions : List AQuestion) (acc : ℚ × ℚ),
      (∀ q ∈ questions, q.id ≠ k) →
      scoreLoop ((k, v) :: answers) questions acc =
        scoreLoop answers questions acc := by
  intro questions
  induction questions with
  | nil => intro acc hk; rfl
  | cons q rest ih =>
      intro acc hk
      obtain ⟨t, e⟩ := acc
      have hq : q.id ≠ k := hk q (List.mem_cons_self q rest)
      have hbeq : (q.id == k) = false := by simpa using hq
      simp only [scoreLoop, List.lookup, hbeq]
      exact ih _ (fun p hp => hk p (List.mem_cons_of_mem q hp))

/-- C9: adding to the answer map an entry whose key is not the identifier
of any question in the list leaves `calculate_score` unchanged. -/
theorem claim_C9_unknown_answer_keys_ignored
    (questions : List AQuestion) (answers : List (String × Int))
    (k : String) (v : Int) (hk : k ∉ questions.map AQuestion.id) :
    calculate_score questions ((k, v) :: answers) =
      calculate_score questions answers := by
  unfold calculate_score
  rw [scoreLoop_unknown_key answers k v questions (0, 0)]
  intro q hq hqk
  exact hk (hqk ▸ List.mem_map_of_mem AQuestion.id hq)

/-- Witness for C9: an answer for the unknown id "zz" does not change the
score of a one-question list. -/
theorem claim_C9_witness :
    calculate_score [⟨"q1", some 1, 0⟩] [("zz", 3), ("q1", 0)] =
      calculate_score [⟨"q1", some 1, 0⟩] [("q1", 0)] :=
  claim_C9_unknown_answer_keys_ignored [⟨"q1", some 1, 0⟩] [("q1", 0)]
    "zz" 3 (by simp)

/-- Errors raised as `TaskDeliveryError` (utils/exceptions.py) by the
task delivery and completion services, distinguished by their message. -/
inductive TaskDeliveryErr where
  | invalidLevel (level : String)
  | userNotFound (uid : Nat)
  | noLevelAssigned (uid : Nat)
  | taskNotFound (tid : Nat)
  | noQuestionsFound (tid : Nat)
deriving DecidableEq

/-- Embedding of `LEVEL_ORDER` (task_delivery.py line 20). -/
def LEVEL_ORDER : List String := ["A1", "A2", "B1", "B2", "C1", "C2"]

/-- The eligible-level computation of `get_tasks_by_level`
(task_delivery.py lines 41-51): the current level, then the level below
(when the index allows), then the level above (when the index allows);
unrecognized levels are rejected. -/
def eligible_levels (level : String) : Except TaskDeliveryErr (List String) :=
  if level ∈ LEVEL_ORDER then
    let level_idx := LEVEL_ORDER.indexOf level
    let v0 := [LEVEL_ORDER.getD level_idx ""]
    let v1 :=
      if level_idx > 0 then v0 ++ [LEVEL_ORDER.getD (level_idx - 1) ""] else v0
    let v2 :=
      if level_idx < LEVEL_ORDER.length - 1 then
        v1 ++ [LEVEL_ORDER.getD (level_idx + 1) ""]
      else v1
    Except.ok v2
  else Except.error (TaskDeliveryErr.invalidLevel level)

/-- A task row: the columns consulted by task delivery (models/task.py). -/
structure DTask where
  id : Nat
  level : String
  status : String
deriving DecidableEq

/-- A user row: the columns consulted by task delivery (models/user.py). -/
structure DUser where
  id : Nat
  current_level : Option String
deriving DecidableEq

/-- The storage rows seen by `TaskDeliveryService`. -/
structure DeliveryDB where
  users : List DUser
  tasks : List DTask
deriving DecidableEq

/-- Embedding of `TaskDeliveryService.get_tasks_by_level` (task_delivery.py lines
26-69): the eligible levels of the requested level, then the published
tasks at those levels. -/
def get_tasks_by_level (level : String) (db : DeliveryDB) :
    Except TaskDeliveryErr (List DTask) :=
  match eligible_levels level with
  | .error e => .error e
  | .ok valid_levels =>
      .ok (db.tasks.filter
        (fun t => valid_levels.contains t.level && t.status == "published"))

/-- Embedding of `TaskDeliveryService.select_task_for_user` (task_delivery.py lines
117-159). Python truthiness: a missing or empty level string counts as
"no level assigned". The first task of the filtered pool is selected. -/
def select_task_for_user (user_id : Nat) (db : DeliveryDB) :
    Except TaskDeliveryErr (Option DTask) :=
  match db.users.find? (fun u => u.id == user_id) with
  | none => .error (.userNotFound user_id)
  | some user =>
      match user.current_level with
      | none => .error (.noLevelAssigned user_id)
      | some lvl =>
          if lvl = "" then .error (.noLevelAssigned user_id)
          else
            match get_tasks_by_level lvl db with
            | .error e => .error e
            | .ok tasks =>
                match tasks with
                | [] => .ok none
                | t :: _ => .ok (some t)

/-- C6: for each recognized level the eligible levels are exactly the
level itself, the level immediately below (when it exists) and the level
immediately above (when it exists); every unrecognized level fails with
the invalid-level error. -/
theorem claim_C6_eligible_levels :
    (∃ ls, eligible_levels "A1" = Except.ok ls ∧ ls.Perm ["A1", "A2"]) ∧
    (∃ ls, eligible_levels "A2" = Except.ok ls ∧ ls.Perm ["A1", "A2", "B1"]) ∧
    (∃ ls, eligible_levels "B1" = Except.ok ls ∧ ls.Perm ["A2", "B1", "B2"]) ∧
    (∃ ls, eligible_levels "B2" = Except.ok ls ∧ ls.Perm ["B1", "B2", "C1"]) ∧
    (∃ ls, eligible_levels "C1" = Except.ok ls ∧ ls.Perm ["B2", "C1", "C2"]) ∧
    (∃ ls, eligible_levels "C2" = Except.ok ls ∧ ls.Perm ["C1", "C2"]) ∧
    (∀ s, s ∉ LEVEL_ORDER →
      eligible_levels s = Except.error (TaskDeliveryErr.invalidLevel s)) := by
  refine ⟨⟨["A1", "A2"], rfl, by decide⟩,
    ⟨["A2", "A1", "B1"], rfl, by decide⟩,
    ⟨["B1", "A2", "B2"], rfl, by decide⟩,
    ⟨["B2", "B1", "C1"], rfl, by decide⟩,
    ⟨["C1", "B2", "C2"], rfl, by decide⟩,
    ⟨["C2", "C1"], rfl, by decide⟩, ?_⟩
  intro s hs
  unfold eligible_levels
  rw [if_neg hs]

/-- Witness for C6 at the unrecognized level "Z9". -/
theorem claim_C6_witness :
    eligible_levels "Z9" = Except.error (TaskDeliveryErr.invalidLevel "Z9") :=
  claim_C6_eligible_levels.2.2.2.2.2.2 "Z9" (by decide)

/-- C7: `select_task_for_user` returns no task (and no error) whenever
the published pool at the user's eligible levels is empty, and whenever
it returns a task, that task is published and its level belongs to the
eligible levels of the user's current level. -/
theorem claim_C7_select_task (user_id : Nat) (db : DeliveryDB) :
    (∀ t, select_task_for_user user_id db = Except.ok (some t) →
      t.status = "published" ∧
      ∃ u lvl lvls, db.users.find? (fun u => u.id == user_id) = some u ∧
        u.current_level = some lvl ∧
        eligible_levels lvl = Except.ok lvls ∧ t.level ∈ lvls) ∧
    (∀ u lvl, db.users.find? (fun u => u.id == user_id) = some u →
      u.current_level = some lvl → lvl ≠ "" →
      get_tasks_by_level lvl db = Except.ok [] →
      select_task_for_user user_id db = Except.ok none) := by
  constructor
  · intro t ht
    unfold select_task_for_user at ht
    cases hfind : db.users.find? (fun u => u.id == user_id) with
    | none => rw [hfind] at ht; exact Except.noConfusion ht
    | some u =>
        rw [hfind] at ht
        dsimp only at ht
        cases hlvl : u.current_level with
        | none => rw [hlvl] at ht; exact Except.noConfusion ht
        | some lvl =>
            rw [hlvl] at ht
            dsimp only at ht
            by_cases hemp : lvl = ""
            · rw [if_pos hemp] at ht; exact Except.noConfusion ht
            · rw [if_neg hemp] at ht
              unfold get_tasks_by_level at ht
              cases helig : eligible_levels lvl with
              | error e => rw [helig] at ht; exact Except.noConfusion ht
              | ok lvls =>
                  rw [helig] at ht
                  dsimp only at ht
                  cases hfil : db.tasks.filter
                      (fun t =>
                        lvls.contains t.level && t.status == "published") with
                  | nil => rw [hfil] at ht; simp at ht
                  | cons t0 rest =>
                      rw [hfil] at ht
                      simp only [Except.ok.injEq, Option.some.injEq] at ht
                      subst ht
                      have hmem : t0 ∈ db.tasks.filter
                          (fun t =>
                            lvls.contains t.level &&
                              t.status == "published") := by
                        rw [hfil]; exact List.mem_cons_self t0 rest
                      have hp := List.of_mem_filter hmem
                      simp only [Bool.and_eq_true, beq_iff_eq] at hp
                      have hmem2 : t0.level ∈ lvls := by simpa using hp.1
                      exact ⟨hp.2, u, lvl, lvls, rfl, hlvl, helig, hmem2⟩
  · intro u lvl hfind hlvl hne hpool
    unfold select_task_for_user
    rw [hfind]
    dsimp only
    rw [hlvl]
    dsimp only
    rw [if_neg hne, hpool]

/-- Witness for C7: a one-user one-task store in which a task is
returned, published and at an eligible level. -/
theorem claim_C7_witness :
    DTask.status ⟨7, "B1", "published"⟩ = "published" ∧
    ∃ u lvl lvls,
      (DeliveryDB.users
          ⟨[⟨1, some "B1"⟩], [⟨7, "B1", "published"⟩]⟩).find?
          (fun u => u.id == 1) = some u ∧
      u.current_level = some lvl ∧
      eligible_levels lvl = Except.ok lvls ∧
      DTask.level ⟨7, "B1", "published"⟩ ∈ lvls :=
  (claim_C7_select_task 1 ⟨[⟨1, some "B1"⟩], [⟨7, "B1", "published"⟩]⟩).1
    ⟨7, "B1", "published"⟩ rfl

/-- A question row of a task: the columns consulted by task completion
(models/question.py). -/
structure TQuestion where
  id : String
  task_id : Nat
  correct_answer : Int
  weight : ℚ
  order : Int
deriving DecidableEq

/-- A progress row (models/progress.py). -/
structure ProgressRec where
  user_id : Nat
  task_id : Nat
  answers : List (String × Int)
  score : ℚ
  percentage_correct : ℚ
  completed_at : Nat
deriving DecidableEq

/-- The storage rows seen by `TaskCompletionService`. -/
structure CompletionDB where
  users : List Nat
  tasks : List Nat
  questions : List TQuestion
  progress : List ProgressRec
deriving DecidableEq

/-- Stable insertion into a list sorted by the `order` column. -/
def insertByOrder (q : TQuestion) : List TQuestion → List TQuestion
  | [] => [q]
  | x :: xs =>
      if q.order ≤ x.order then q :: x :: xs else x :: insertByOrder q xs

/-- Stable sort by the `order` column, modelling `order_by(Question.order)`. -/
def sortByOrder : List TQuestion → List TQuestion
  | [] => []
  | q :: qs => insertByOrder q (sortByOrder qs)

/-- The questions of a task, ordered by their `order` column
(task_completion.py lines 55-57). -/
def questionsOf (db : CompletionDB) (task_id : Nat) : List TQuestion :=
  sortByOrder (db.questions.filter (fun q => q.task_id == task_id))

/-- The scoring loop of `complete_task` (task_completion.py lines 63-73):
accumulates `(total_weight, correct_weight)`. -/
def completionLoop (answers : List (String × Int)) :
    List TQuestion → ℚ × ℚ → ℚ × ℚ
  | [], acc => acc
  | q :: rest, (total, correct) =>
      let total' := total + q.weight
      let correct' :=
        match answers.lookup q.id with
        | some userAnswer =>
            if userAnswer = q.correct_answer then correct + q.weight
            else correct
        | none => correct
      completionLoop answers rest (total', correct')

/-- Replace the first element satisfying `p` (the single row returned by
`.first()` and mutated in place before commit). -/
def updateFirst (p : α → Bool) (f : α → α) : List α → List α
  | [] => []
  | x :: xs => if p x then f x :: xs else x :: updateFirst p f xs

/-- The (user, task) pair predicate of the progress upsert query
(task_completion.py lines 79-86). -/
def pairMatch (user_id task_id : Nat) (p : ProgressRec) : Bool :=
  p.user_id == user_id && p.task_id == task_id

/-- Embedding of `TaskCompletionService.complete_task` (task_completion.py lines
24-120): validates user, task and question existence, computes the raw
earned weight and the percentage, and upserts the (user, task) progress
row. Returns the updated store and the stored progress row. -/
def complete_task (user_id task_id : Nat) (answers : List (String × Int))
    (now : Nat) (db : CompletionDB) :
    Except TaskDeliveryErr (CompletionDB × ProgressRec) :=
  if user_id ∈ db.users then
    if task_id ∈ db.tasks then
      let questions := questionsOf db task_id
      if questions = [] then .error (.noQuestionsFound task_id)
      else
        let acc := completionLoop answers questions (0, 0)
        let score := acc.2
        let percentage_correct := if acc.1 > 0 then acc.2 / acc.1 * 100 else 0
        match db.progress.find? (pairMatch user_id task_id) with
        | some existing =>
            let upd := fun p : ProgressRec =>
              { p with answers := answers, score := score,
                       percentage_correct := percentage_correct,
                       completed_at := now }
            .ok ({ db with
                    progress :=
                      updateFirst (pairMatch user_id task_id) upd
                        db.progress },
                 upd existing)
        | none =>
            let newRec : ProgressRec :=
              ⟨user_id, task_id, answers, score, percentage_correct, now⟩
            .ok ({ db with progress := db.progress ++ [newRec] }, newRec)
    else .error (.taskNotFound task_id)
  else .error (.userNotFound user_id)

/-- Spec-side total weight of a task's question list. -/
def totalWeightT (qs : List TQuestion) : ℚ := (qs.map TQuestion.weight).sum

/-- Spec-side earned weight: sum of the weights of the correctly answered
questions. -/
def earnedWeightT (qs : List TQuestion) (answers : List (String × Int)) : ℚ :=
  ((qs.filter
      (fun q => answers.lookup q.id == some q.correct_answer)).map
    TQuestion.weight).sum

lemma completionLoop_eq (answers : List (String × Int)) :
    ∀ (qs : List TQuestion) (t e : ℚ),
      completionLoop answers qs (t, e) =
        (t + totalWeightT qs, e + earnedWeightT qs answers) := by
  intro qs
  induction qs with
  | nil => intro t e; simp [completionLoop, totalWeightT, earnedWeightT]
  | cons q rest ih =>
      intro t e
      simp only [completionLoop]
      rw [ih]
      cases hq : answers.lookup q.id with
      | none =>
          simp only [totalWeightT, earnedWeightT, List.map_cons, List.sum_cons,
            List.filter_cons, Prod.mk.injEq]
          simp [hq]
          first | trivial | ring1 | (constructor <;> (first | trivial | ring1))
      | some a =>
          by_cases ha : a = q.correct_answer
          · simp only [totalWeightT, earnedWeightT, List.map_cons,
              List.sum_cons, List.filter_cons, Prod.mk.injEq]
            simp [hq, ha]
            first | trivial | ring1 | (constructor <;> (first | trivial | ring1))
          · simp only [totalWeightT, earnedWeightT, List.map_cons,
              List.sum_cons, List.filter_cons, Prod.mk.injEq]
            simp [hq, ha]
            first | trivial | ring1 | (constructor <;> (first | trivial | ring1))

lemma updateFirst_length (p : α → Bool) (f : α → α) :
    ∀ l : List α, (updateFirst p f l).length = l.length := by
  intro l
  induction l with
  | nil => rfl
  | cons x xs ih =>
      by_cases hx : p x
      · simp [updateFirst, hx]
      · simp [updateFirst, hx, ih]

lemma countP_updateFirst (p : α → Bool) (f : α → α)
    (hpf : ∀ a, p (f a) = p a) :
    ∀ l : List α, (updateFirst p f l).countP p = l.countP p := by
  intro l
  induction l with
  | nil => rfl
  | cons x xs ih =>
      by_cases hx : p x
      · simp [updateFirst, hx, List.countP_cons, hpf]
      · simp [updateFirst, hx, List.countP_cons, ih]

lemma find?_updateFirst (p : α → Bool) (f : α → α)
    (hpf : ∀ a, p (f a) = p a) :
    ∀ (l : List α) (x : α), l.find? p = some x →
      (updateFirst p f l).find? p = some (f x) := by
  intro l
  induction l with
  | nil => intro x hx; exact Option.noConfusion hx
  | cons a as ih =>
      intro x hx
      by_cases ha : p a
      · rw [List.find?_cons_of_pos as ha] at hx
        cases hx
        have hupd : updateFirst p f (a :: as) = f a :: as := by
          simp [updateFirst, ha]
        rw [hupd]
        exact List.find?_cons_of_pos as (by rw [hpf]; exact ha)
      · rw [List.find?_cons_of_neg as ha] at hx
        rw [show updateFirst p f (a :: as) = a :: updateFirst p f as by
          simp [updateFirst, ha]]
        rw [List.find?_cons_of_neg _ ha]
        exact ih x hx

lemma find?_append_none (p : α → Bool) {l : List α} (l' : List α)
    (h : l.find? p = none) : (l ++ l').find? p = l'.find? p := by
  induction l with
  | nil => rfl
  | cons a as ih =>
      rw [List.find?_eq_none] at h
      have ha : ¬ p a := h a (List.mem_cons_self a as)
      rw [List.cons_append, List.find?_cons_of_neg _ ha]
      apply ih
      rw [List.find?_eq_none]
      intro x hx
      exact h x (List.mem_cons_of_mem a hx)

/-- C8: task completion stores the raw earned weight (not normalized) as
`score` and earned/total×100 (0 when the total weight is 0) as
`percentage_correct`, and upserts the (learner, task) progress row: with
at most one existing row for the pair, afterwards there is exactly one
row for the pair, holding the latest submission (answers, score,
percentage, timestamp); an existing row is overwritten in place (same
store size) and otherwise exactly one row is created. -/
theorem claim_C8_complete_task_scoring_upsert
    (db : CompletionDB) (user_id task_id : Nat)
    (answers : List (String × Int)) (now : Nat)
    (hu : user_id ∈ db.users) (htk : task_id ∈ db.tasks)
    (hq : questionsOf db task_id ≠ [])
    (hcount : db.progress.countP (pairMatch user_id task_id) ≤ 1) :
    ∃ db' prog,
      complete_task user_id task_id answers now db = Except.ok (db', prog) ∧
      prog.score = earnedWeightT (questionsOf db task_id) answers ∧
      prog.percentage_correct =
        (if 0 < totalWeightT (questionsOf db task_id) then
          earnedWeightT (questionsOf db task_id) answers /
            totalWeightT (questionsOf db task_id) * 100
        else 0) ∧
      prog.answers = answers ∧ prog.completed_at = now ∧
      prog.user_id = user_id ∧ prog.task_id = task_id ∧
      db'.progress.countP (pairMatch user_id task_id) = 1 ∧
      db'.progress.find? (pairMatch user_id task_id) = some prog ∧
      (db.progress.countP (pairMatch user_id task_id) = 1 →
        db'.progress.length = db.progress.length) ∧
      (db.progress.countP (pairMatch user_id task_id) = 0 →
        db'.progress.length = db.progress.length + 1) := by
  have hacc := completionLoop_eq answers (questionsOf db task_id) 0 0
  have hacc0 : completionLoop answers (questionsOf db task_id) (0 : ℚ × ℚ) =
      (0 + totalWeightT (questionsOf db task_id),
        0 + earnedWeightT (questionsOf db task_id) answers) := hacc
  simp only [complete_task]
  rw [if_pos hu, if_pos htk, if_neg hq]
  cases hfind : db.progress.find? (pairMatch user_id task_id) with
  | some existing =>
      dsimp only
      have hp := List.find?_some hfind
      have hp' : existing.user_id = user_id ∧ existing.task_id = task_id := by
        simpa [pairMatch] using hp
      have hpf : ∀ a : ProgressRec,
          pairMatch user_id task_id
            { a with answers := answers,
                     score := (completionLoop answers
                       (questionsOf db task_id) (0, 0)).2,
                     percentage_correct :=
                       if (completionLoop answers
                           (questionsOf db task_id) (0, 0)).1 > 0 then
                         (completionLoop answers
                             (questionsOf db task_id) (0, 0)).2 /
                           (completionLoop answers
                             (questionsOf db task_id) (0, 0)).1 * 100
                       else 0,
                     completed_at := now } =
            pairMatch user_id task_id a := fun a => rfl
      have hcount1 : db.progress.countP (pairMatch user_id task_id) = 1 := by
        have hpos : 0 < db.progress.countP (pairMatch user_id task_id) := by
          rw [List.countP_pos]
          exact ⟨existing, List.mem_of_find?_eq_some hfind, hp⟩
        omega
      refine ⟨_, _, rfl, ?_, ?_, rfl, rfl, hp'.1, hp'.2, ?_, ?_, ?_, ?_⟩
      · simp [hacc, hacc0]
      · simp [hacc, hacc0]
      · rw [countP_updateFirst _ _ hpf, hcount1]
      · exact find?_updateFirst _ _ hpf db.progress existing hfind
      · intro h1
        exact updateFirst_length _ _ db.progress
      · intro h0
        rw [hcount1] at h0
        exact absurd h0 one_ne_zero
  | none =>
      dsimp only
      have hzero : db.progress.countP (pairMatch user_id task_id) = 0 := by
        rw [List.countP_eq_zero]
        intro a ha
        exact List.find?_eq_none.mp hfind a ha
      have hself : pairMatch user_id task_id
          ⟨user_id, task_id, answers,
            (completionLoop answers (questionsOf db task_id) (0, 0)).2,
            if (completionLoop answers (questionsOf db task_id) (0, 0)).1 > 0
            then (completionLoop answers (questionsOf db task_id) (0, 0)).2 /
                (completionLoop answers (questionsOf db task_id) (0, 0)).1 *
                100
            else 0, now⟩ = true := by
        simp [pairMatch]
      refine ⟨_, _, rfl, ?_, ?_, rfl, rfl, rfl, rfl, ?_, ?_, ?_, ?_⟩
      · simp [hacc, hacc0]
      · simp [hacc, hacc0]
      · rw [List.countP_append, hzero, List.countP_cons_of_pos _ _ hself]
        rfl
      · rw [find?_append_none _ _ hfind]
        exact List.find?_cons_of_pos _ hself
      · intro h1
        rw [hzero] at h1
        exact absurd h1.symm one_ne_zero
      · intro h0
        simp

/-- Witness for C8: completing a one-question task for user 1 stores the
raw earned weight 1 as the score. -/
theorem claim_C8_witness :
    ∃ db' prog,
      complete_task 1 2 [("q1", 0)] 5 ⟨[1], [2], [⟨"q1", 2, 0, 1, 1⟩], []⟩ =
        Except.ok (db', prog) ∧
      prog.score = 1 ∧ prog.percentage_correct = 100 := by
  obtain ⟨db', prog, h1, h2, h3, _⟩ :=
    claim_C8_complete_task_scoring_upsert ⟨[1], [2], [⟨"q1", 2, 0, 1, 1⟩], []⟩
      1 2 [("q1", 0)] 5 (by decide) (by decide) (by decide) (by decide)
  refine ⟨db', prog, h1, ?_, ?_⟩
  · rw [h2]
    simp [earnedWeightT, questionsOf, sortByOrder, insertByOrder, List.lookup]
  · rw [h3]
    norm_num [earnedWeightT, totalWeightT, questionsOf, sortByOrder,
      insertByOrder, List.lookup]

lemma totalWeightT_eq_zero_iff (qs : List TQuestion)
    (h : ∀ q ∈ qs, 0 ≤ q.weight) :
    totalWeightT qs = 0 ↔ ∀ q ∈ qs, q.weight = 0 := by
  induction qs with
  | nil => simp [totalWeightT]
  | cons q rest ih =>
      have hq : 0 ≤ q.weight := h q (List.mem_cons_self q rest)
      have hrest : ∀ p ∈ rest, 0 ≤ p.weight :=
        fun p hp => h p (List.mem_cons_of_mem q hp)
      have hsum : 0 ≤ (rest.map TQuestion.weight).sum := by
        apply List.sum_nonneg
        intro x hx
        obtain ⟨p, hp, rfl⟩ := List.mem_map.mp hx
        exact hrest p hp
      constructor
      · intro h0
        have hq0 : q.weight = 0 ∧ (rest.map TQuestion.weight).sum = 0 := by
          simp only [totalWeightT, List.map_cons, List.sum_cons] at h0
          constructor <;> linarith
        intro p hp
        rcases List.mem_cons.mp hp with rfl | hp'
        · exact hq0.1
        · exact (ih hrest).mp hq0.2 p hp'
      · intro hall
        simp only [totalWeightT, List.map_cons, List.sum_cons]
        rw [hall q (List.mem_cons_self q rest)]
        have : (rest.map TQuestion.weight).sum = 0 :=
          (ih hrest).mpr (fun p hp => hall p (List.mem_cons_of_mem q hp))
        rw [this]
        norm_num

/-- C10: `complete_task` fails (with the no-questions `TaskDeliveryError`
once user and task exist) whenever the task has no questions, so an empty
question set is reported as an error rather than a 0.0 score/percentage;
the zero-total-weight percentage branch is reachable only when the task's
(nonempty, nonnegatively weighted) questions all have zero weight. -/
theorem claim_C10_empty_questions_error
    (db : CompletionDB) (user_id task_id : Nat)
    (answers : List (String × Int)) (now : Nat) :
    (questionsOf db task_id = [] →
      ∃ e, complete_task user_id task_id answers now db = Except.error e) ∧
    (user_id ∈ db.users → task_id ∈ db.tasks → questionsOf db task_id = [] →
      complete_task user_id task_id answers now db =
        Except.error (TaskDeliveryErr.noQuestionsFound task_id)) ∧
    (questionsOf db task_id ≠ [] →
      (∀ q ∈ questionsOf db task_id, 0 ≤ q.weight) →
      (¬ 0 < totalWeightT (questionsOf db task_id) ↔
        ∀ q ∈ questionsOf db task_id, q.weight = 0)) := by
  have herr : user_id ∈ db.users → task_id ∈ db.tasks →
      questionsOf db task_id = [] →
      complete_task user_id task_id answers now db =
        Except.error (TaskDeliveryErr.noQuestionsFound task_id) := by
    intro hu htk hempty
    simp only [complete_task]
    rw [if_pos hu, if_pos htk, if_pos hempty]
  refine ⟨?_, herr, ?_⟩
  · intro hempty
    by_cases hu : user_id ∈ db.users
    · by_cases htk : task_id ∈ db.tasks
      · exact ⟨_, herr hu htk hempty⟩
      · refine ⟨TaskDeliveryErr.taskNotFound task_id, ?_⟩
        simp only [complete_task]
        rw [if_pos hu, if_neg htk]
    · refine ⟨TaskDeliveryErr.userNotFound user_id, ?_⟩
      simp only [complete_task]
      rw [if_neg hu]
  · intro hne hw
    have hnonneg : 0 ≤ totalWeightT (questionsOf db task_id) := by
      apply List.sum_nonneg
      intro x hx
      obtain ⟨p, hp, rfl⟩ := List.mem_map.mp hx
      exact hw p hp
    constructor
    · intro hnotpos
      have h0 : totalWeightT (questionsOf db task_id) = 0 := le_antisymm
        (not_lt.mp hnotpos) hnonneg
      exact (totalWeightT_eq_zero_iff _ hw).mp h0
    · intro hall
      rw [(totalWeightT_eq_zero_iff _ hw).mpr hall]
      norm_num

/-- Witness for C10: a task with no question rows makes `complete_task`
fail with the no-questions error. -/
theorem claim_C10_witness :
    complete_task 1 2 [] 0 ⟨[1], [2], [], []⟩ =
      Except.error (TaskDeliveryErr.noQuestionsFound 2) :=
  (claim_C10_empty_questions_error ⟨[1], [2], [], []⟩ 1 2 [] 0).2.1
    (by decide) (by decide) rfl

/-- Embedding of `AssessmentStatus` (models/assessment.py). -/
inductive AStatus where
  | in_progress
  | completed
  | abandoned
deriving DecidableEq

/-- An assessment row: the columns touched by the assessment service and
the bot handlers (models/assessment.py). -/
structure ARow where
  id : Nat
  user_id : Nat
  questions : List String
  answers : List (String × Int)
  score : ℚ
  resulting_level : Option String
  status : AStatus
  completed_at : Option Nat
deriving DecidableEq

/-- Embedding of `AssessmentService.abandon_assessment` (assessment.py lines 270-301):
looks the session up by id and sets its status to abandoned, with no
status precondition. Returns the updated store and the updated row. -/
def abandon_assessment (aid : Nat) (db : List ARow) :
    Except AssessmentErr (List ARow × ARow) :=
  match db.find? (fun a => a.id == aid) with
  | none => .error (.assessmentNotFound aid)
  | some a =>
      .ok (updateFirst (fun b => b.id == aid)
            (fun b => { b with status := AStatus.abandoned }) db,
           { a with status := AStatus.abandoned })

/-- Embedding of `AssessmentService.complete_assessment` (assessment.py lines 217-268):
looks the session up by id and overwrites answers, score, level, status
(to completed) and the completion timestamp, with no status
precondition. Returns the updated store and the updated row. -/
def complete_assessment (aid : Nat) (answers : List (String × Int))
    (score : ℚ) (level : String) (now : Nat) (db : List ARow) :
    Except AssessmentErr (List ARow × ARow) :=
  match db.find? (fun a => a.id == aid) with
  | none => .error (.assessmentNotFound aid)
  | some a =>
      let upd := fun b : ARow =>
        { b with answers := answers, score := score,
                 resulting_level := some level,
                 status := AStatus.completed, completed_at := some now }
      .ok (updateFirst (fun b => b.id == aid) upd db, upd a)

/-- Outcome reported to the user by the answer handler. -/
inductive AnswerOutcome where
  | notFoundOrEnded
  | badIndex
  | recorded
deriving DecidableEq

/-- Python dict assignment `answers[key] = value` on an association list
with unique keys: overwrite in place or append. -/
def dictSet (m : List (String × Int)) (k : String) (v : Int) :
    List (String × Int) :=
  if m.lookup k = none then m ++ [(k, v)]
  else m.map (fun p => if p.1 == k then (p.1, v) else p)

/-- The store-affecting core of `handle_assessment_answer`
(api/bot/handlers/assessment.py lines 206-264): a session that is
missing or not in progress is reported inactive and nothing is stored;
an out-of-bounds question index is rejected; otherwise the answer for
the indexed question id is written into the session's answer set. -/
def handle_assessment_answer (aid : Nat) (question_index : Nat)
    (answer_index : Int) (db : List ARow) : List ARow × AnswerOutcome :=
  match db.find? (fun a => a.id == aid) with
  | none => (db, .notFoundOrEnded)
  | some assessment =>
      if assessment.status ≠ AStatus.in_progress then (db, .notFoundOrEnded)
      else if assessment.questions.length ≤ question_index then (db, .badIndex)
      else
        let qid := assessment.questions.getD question_index ""
        (updateFirst (fun b => b.id == aid)
          (fun b => { b with answers := dictSet b.answers qid answer_index })
          db, .recorded)

/-- Embedding of `AssessmentService.start_assessment` (assessment.py lines 93-141):
appends a fresh in-progress session with empty answers and score 0. -/
def start_assessment (uid : Nat) (question_ids : List String) (newId : Nat)
    (db : List ARow) : List ARow × ARow :=
  let assessment : ARow :=
    ⟨newId, uid, question_ids, [], 0, none, AStatus.in_progress, none⟩
  (db ++ [assessment], assessment)

/-- The in-progress-session predicate of `assess_command`
(api/bot/handlers/assessment.py lines 56-63). -/
def ipFor (uid : Nat) (a : ARow) : Bool :=
  a.user_id == uid && a.status == AStatus.in_progress

/-- The store-affecting core of `assess_command`
(api/bot/handlers/assessment.py lines 55-96): abandon the first existing
in-progress session of the user, if any, then start a new session. -/
def assess_command (uid : Nat) (question_ids : List String) (newId : Nat)
    (db : List ARow) : Except AssessmentErr (List ARow × ARow) :=
  match db.find? (ipFor uid) with
  | some existing =>
      match abandon_assessment existing.id db with
      | .error e => .error e
      | .ok (db1, _) => .ok (start_assessment uid question_ids newId db1)
  | none => .ok (start_assessment uid question_ids newId db)

lemma find?_decomp {p : α → Bool} :
    ∀ {l : List α} {x : α}, l.find? p = some x →
      ∃ l1 l2, l = l1 ++ x :: l2 ∧ ∀ a ∈ l1, ¬ p a := by
  intro l
  induction l with
  | nil => intro x hx; exact Option.noConfusion hx
  | cons a as ih =>
      intro x hx
      by_cases ha : p a
      · rw [List.find?_cons_of_pos as ha] at hx
        cases hx
        exact ⟨[], as, rfl, by simp⟩
      · rw [List.find?_cons_of_neg as ha] at hx
        obtain ⟨l1, l2, rfl, hfree⟩ := ih hx
        refine ⟨a :: l1, l2, rfl, ?_⟩
        intro b hb
        rcases List.mem_cons.mp hb with rfl | hb'
        · exact ha
        · exact hfree b hb'

lemma find?_append_some {p : α → Bool} {l : List α} {x : α} (l' : List α)
    (h : l.find? p = some x) : (l ++ l').find? p = some x := by
  induction l with
  | nil => exact Option.noConfusion h
  | cons a as ih =>
      by_cases ha : p a
      · rw [List.find?_cons_of_pos as ha] at h
        rw [List.cons_append, List.find?_cons_of_pos _ ha]
        exact h
      · rw [List.find?_cons_of_neg as ha] at h
        rw [List.cons_append, List.find?_cons_of_neg _ ha]
        exact ih h

lemma updateFirst_append_left (p : α → Bool) (f : α → α) {l1 : List α}
    (l2 : List α) (h : ∀ a ∈ l1, ¬ p a) :
    updateFirst p f (l1 ++ l2) = l1 ++ updateFirst p f l2 := by
  induction l1 with
  | nil => rfl
  | cons a as ih =>
      have ha : ¬ p a := h a (List.mem_cons_self a as)
      rw [List.cons_append, show updateFirst p f (a :: (as ++ l2)) =
        a :: updateFirst p f (as ++ l2) by simp [updateFirst, ha]]
      rw [ih (fun b hb => h b (List.mem_cons_of_mem a hb))]
      rfl

/-- C4 (amended): the code does not enforce completed/abandoned as
terminal at the service level. Recording an answer against a session
that is not in progress stores nothing, changes no state and raises no
error (the handler reports an inactive assessment); but completing a
session of any status — including completed or abandoned — raises no
error and transitions it to completed, with its fields overwritten. -/
theorem claim_C4_no_terminal_state_enforcement (db : List ARow) (aid : Nat) :
    (∀ a, db.find? (fun b => b.id == aid) = some a →
      ∀ answers score level now, ∃ db' a',
        complete_assessment aid answers score level now db =
          Except.ok (db', a') ∧ a'.status = AStatus.completed) ∧
    (∀ a, db.find? (fun b => b.id == aid) = some a →
      a.status ≠ AStatus.in_progress → ∀ qi ai,
        handle_assessment_answer aid qi ai db =
          (db, AnswerOutcome.notFoundOrEnded)) := by
  constructor
  · intro a ha answers score level now
    unfold complete_assessment
    rw [ha]
    exact ⟨_, _, rfl, rfl⟩
  · intro a ha hstat qi ai
    unfold handle_assessment_answer
    rw [ha]
    dsimp only
    rw [if_pos hstat]

/-- Counterexample to C4 as stated: completing an abandoned session does
not fail with an invalid-state error; it succeeds and transitions the
session to completed (abandoned is not terminal at the service level). -/
theorem claim_C4_counterexample :
    ∃ db' a',
      complete_assessment 1 [("q1", 0)] 0 "A1" 5
          [⟨1, 10, ["q1"], [], 0, none, AStatus.abandoned, none⟩] =
        Except.ok (db', a') ∧
      a'.status = AStatus.completed ∧
      db' = [⟨1, 10, ["q1"], [("q1", 0)], 0, some "A1",
              AStatus.completed, some 5⟩] :=
  ⟨_, _, rfl, rfl, rfl⟩

/-- Witness for C4 (amended): an answer sent to a completed session
leaves the store unchanged and reports an inactive assessment. -/
theorem claim_C4_witness :
    handle_assessment_answer 1 0 0
        [⟨1, 10, ["q1"], [], 0, none, AStatus.completed, none⟩] =
      ([⟨1, 10, ["q1"], [], 0, none, AStatus.completed, none⟩],
        AnswerOutcome.notFoundOrEnded) :=
  (claim_C4_no_terminal_state_enforcement
      [⟨1, 10, ["q1"], [], 0, none, AStatus.completed, none⟩] 1).2
    ⟨1, 10, ["q1"], [], 0, none, AStatus.completed, none⟩ rfl (by decide) 0 0

/-- C5: starting a new assessment while the learner has exactly one
in-progress session first abandons that session, then creates a fresh
in-progress session with an empty answer set, leaving exactly one
in-progress session for the learner. -/
theorem claim_C5_single_in_progress_session
    (db : List ARow) (uid newId : Nat) (question_ids : List String)
    (hnodup : (db.map ARow.id).Nodup)
    (hnew : newId ∉ db.map ARow.id)
    (hone : db.countP (ipFor uid) = 1) :
    ∃ db' anew ex,
      assess_command uid question_ids newId db = Except.ok (db', anew) ∧
      db.find? (ipFor uid) = some ex ∧
      (∃ ex', db'.find? (fun b => b.id == ex.id) = some ex' ∧
        ex'.status = AStatus.abandoned) ∧
      anew.user_id = uid ∧ anew.status = AStatus.in_progress ∧
      anew.answers = [] ∧ anew.id = newId ∧
      db'.countP (ipFor uid) = 1 := by
  have hpos : 0 < db.countP (ipFor uid) := by omega
  obtain ⟨x, hxmem, hxp⟩ := List.countP_pos_iff.mp hpos
  obtain ⟨ex, hfindip⟩ : ∃ ex, db.find? (ipFor uid) = some ex := by
    cases hf : db.find? (ipFor uid) with
    | none => exact absurd hxp (List.find?_eq_none.mp hf x hxmem)
    | some y => exact ⟨y, rfl⟩
  have hexp : ipFor uid ex = true := List.find?_some hfindip
  have hexmem : ex ∈ db := List.mem_of_find?_eq_some hfindip
  obtain ⟨l1, l2, hdecomp, hl1free⟩ := find?_decomp hfindip
  have hl1_idfree : ∀ a ∈ l1, ¬ ((a.id == ex.id) = true) := by
    intro a ha hbeq
    have haid : a.id = ex.id := by simpa using hbeq
    have hamem : a ∈ db := by
      rw [hdecomp]; exact List.mem_append_left _ ha
    have haeq : a = ex := List.inj_on_of_nodup_map hnodup hamem hexmem haid
    subst haeq
    rw [hdecomp, List.map_append, List.map_cons] at hnodup
    rcases List.nodup_append.mp hnodup with ⟨-, -, hdisj⟩
    exact hdisj (List.mem_map_of_mem ARow.id ha) (List.mem_cons_self _ _)
  have hl1_find_none : l1.find? (fun b => b.id == ex.id) = none :=
    List.find?_eq_none.mpr hl1_idfree
  have hexbeq : ((fun b : ARow => b.id == ex.id) ex) = true := by simp
  have hfind_id : db.find? (fun b => b.id == ex.id) = some ex := by
    rw [hdecomp, find?_append_none _ (ex :: l2) hl1_find_none]
    exact List.find?_cons_of_pos _ hexbeq
  have hupd : updateFirst (fun b => b.id == ex.id)
      (fun b => { b with status := AStatus.abandoned }) db =
      l1 ++ { ex with status := AStatus.abandoned } :: l2 := by
    rw [hdecomp, updateFirst_append_left _ _ (ex :: l2) hl1_idfree]
    congr 1
    simp [updateFirst, hexbeq]
  have habandon : abandon_assessment ex.id db =
      Except.ok (l1 ++ { ex with status := AStatus.abandoned } :: l2,
        { ex with status := AStatus.abandoned }) := by
    unfold abandon_assessment
    rw [hfind_id]
    dsimp only
    rw [hupd]
  have hcnt : l1.countP (ipFor uid) + (ex :: l2).countP (ipFor uid) = 1 := by
    rw [← List.countP_append, ← hdecomp]; exact hone
  rw [List.countP_cons_of_pos _ _ hexp] at hcnt
  have hl1z : l1.countP (ipFor uid) = 0 := by omega
  have hl2z : l2.countP (ipFor uid) = 0 := by omega
  have hexAnotip : ¬ ipFor uid { ex with status := AStatus.abandoned } = true := by
    simp [ipFor]
  have hnewip : ipFor uid
      ⟨newId, uid, question_ids, [], 0, none,
        AStatus.in_progress, none⟩ = true := by
    simp [ipFor]
  have hexAbeq : ((fun b : ARow => b.id == ex.id)
      { ex with status := AStatus.abandoned }) = true := by simp
  refine ⟨(l1 ++ { ex with status := AStatus.abandoned } :: l2) ++
      [⟨newId, uid, question_ids, [], 0, none, AStatus.in_progress, none⟩],
    ⟨newId, uid, question_ids, [], 0, none, AStatus.in_progress, none⟩, ex,
    ?_, hfindip, ⟨{ ex with status := AStatus.abandoned }, ?_, rfl⟩,
    rfl, rfl, rfl, rfl, ?_⟩
  · unfold assess_command
    rw [hfindip]
    dsimp only
    rw [habandon]
    rfl
  · apply find?_append_some
    rw [find?_append_none _ ({ ex with status := AStatus.abandoned } :: l2)
      hl1_find_none]
    exact List.find?_cons_of_pos _ hexAbeq
  · simp [List.countP_append, List.countP_cons, hexAnotip, hnewip, hl1z, hl2z]

/-- Witness for C5: starting a second assessment for user 10 with one
in-progress session present leaves exactly one in-progress session. -/
theorem claim_C5_witness :
    ∃ db' anew ex,
      assess_command 10 ["q2"] 2
          [⟨1, 10, ["q1"], [], 0, none, AStatus.in_progress, none⟩] =
        Except.ok (db', anew) ∧
      ([⟨1, 10, ["q1"], [], 0, none, AStatus.in_progress, none⟩] :
          List ARow).find? (ipFor 10) = some ex ∧
      (∃ ex', db'.find? (fun b => b.id == ex.id) = some ex' ∧
        ex'.status = AStatus.abandoned) ∧
      anew.user_id = 10 ∧ anew.status = AStatus.in_progress ∧
      anew.answers = [] ∧ anew.id = 2 ∧
      db'.countP (ipFor 10) = 1 :=
  claim_C5_single_in_progress_session
    [⟨1, 10, ["q1"], [], 0, none, AStatus.in_progress, none⟩] 10 2 ["q2"]
    (by decide) (by decide) (by decide)
